import Mathlib

/-!
Verification of the `mementoizer` video-reordering pipeline
(`src/mementoizer/__init__.py`).

The pipeline is embedded shallowly:

* timestamps are rationals (the Python code computes with real-number
  seconds; none of the verified properties depend on float rounding);
* clip handles of the external video library (`moviepy`) are a syntax
  tree `Clip` recording exactly the library calls the program makes
  (`subclip`, `fadein`, `blackwhite`, `crossfadein`, `crossfadeout`,
  `set_start`, `CompositeVideoClip`, `ColorClip`);
* the subprocess-based cut detector is represented by a parameter
  `detected` holding the timestamps it would return, plus a flag
  recording whether it was invoked;
* file writes and the returned path are recorded in an explicit
  `Outcome` value; an uncaught `IndexError` is `Outcome.crashed`.
-/

/-- Shallow syntax tree of the moviepy clip operations used by the
program.  `base d` is a source clip of duration `d`; `subclipTo c a b`
is `c.subclip(a, b)`; `subclipFrom c t` is `c.subclip(t)` (to end of
clip); `compositeVideoClip a b` is `CompositeVideoClip([a, b])` (the
program only ever composites exactly two clips); `colorClip d` is
`ColorClip(size, (0,0,0), duration=d)`. -/
inductive Clip where
  | base (d : ℚ) : Clip
  | subclipTo (c : Clip) (a b : ℚ) : Clip
  | subclipFrom (c : Clip) (t : ℚ) : Clip
  | fadein (c : Clip) (d : ℚ) : Clip
  | blackwhite (c : Clip) : Clip
  | crossfadeout (c : Clip) (d : ℚ) : Clip
  | crossfadein (c : Clip) (d : ℚ) : Clip
  | setStart (c : Clip) (t : ℚ) : Clip
  | compositeVideoClip (a b : Clip) : Clip
  | colorClip (d : ℚ) : Clip
  deriving DecidableEq, Inhabited, Repr

namespace Clip

/-- Start attribute of a clip (moviepy `clip.start`): `set_start`
overrides it, effect filters preserve it, freshly built clips start
at 0. -/
def start : Clip → ℚ
  | base _ => 0
  | subclipTo _ _ _ => 0
  | subclipFrom _ _ => 0
  | fadein c _ => c.start
  | blackwhite c => c.start
  | crossfadeout c _ => c.start
  | crossfadein c _ => c.start
  | setStart _ t => t
  | compositeVideoClip _ _ => 0
  | colorClip _ => 0

/-- Duration attribute (moviepy `clip.duration`): subclipping
recomputes it, effect filters and `set_start` preserve it, a composite
extends to the largest end time of its parts. -/
def duration : Clip → ℚ
  | base d => d
  | subclipTo _ a b => b - a
  | subclipFrom c t => c.duration - t
  | fadein c _ => c.duration
  | blackwhite c => c.duration
  | crossfadeout c _ => c.duration
  | crossfadein c _ => c.duration
  | setStart c _ => c.duration
  | compositeVideoClip a b =>
      max (a.start + a.duration) (b.start + b.duration)
  | colorClip d => d

/-- End attribute (moviepy `clip.end = clip.start + clip.duration`). -/
def endTime (c : Clip) : ℚ := c.start + c.duration

end Clip

/-- Embeds lines 67–68: `if skip_start: cuts = [cut for cut in cuts if
cut >= skip_start]`.  The Python guard tests truthiness of the number,
i.e. `skip_start ≠ 0`. -/
def skipStartFilter (skip_start : ℚ) (cuts : List ℚ) : List ℚ :=
  if skip_start ≠ 0 then cuts.filter (fun cut => decide (skip_start ≤ cut)) else cuts

/-- Embeds lines 69–70: `if skip_end: cuts = [cut for cut in cuts if
cut <= skip_end]`. -/
def skipEndFilter (skip_end : ℚ) (cuts : List ℚ) : List ℚ :=
  if skip_end ≠ 0 then cuts.filter (fun cut => decide (cut ≤ skip_end)) else cuts

/-- Loop body of the minimum-scene-length filter (lines 74–76): walk
`cuts`, keeping a cut exactly when `new_cuts[-1] + min_scene_length <=
cut`, where `last` is the most recently accepted cut `new_cuts[-1]`. -/
def minSceneGo (min_scene_length : ℚ) (last : ℚ) : List ℚ → List ℚ
  | [] => []
  | cut :: rest =>
      if last + min_scene_length ≤ cut then
        cut :: minSceneGo min_scene_length cut rest
      else
        minSceneGo min_scene_length last rest

/-- Embeds lines 72–78: the minimum-scene-length filtering step.  The
accumulator `new_cuts` starts as `[0]` and is extended by
`minSceneGo`. -/
def minSceneFilter (min_scene_length : ℚ) (cuts : List ℚ) : List ℚ :=
  0 :: minSceneGo min_scene_length 0 cuts

/-- Body of `split_scenes` (lines 16–21), producing the clip for loop
index `i`: `clip.subclip(timestamps[i], timestamps[i+1] + overlap)`
with a 0.5 s fade-in; when `timestamps[i + 1]` raises `IndexError`,
`clip.subclip(timestamps[-1])` with a 0.5 s fade-in instead. -/
def sceneAt (clip : Clip) (timestamps : List ℚ) (overlap : ℚ) (i : ℕ) : Clip :=
  match timestamps.get? (i + 1) with
  | some next =>
      Clip.fadein (Clip.subclipTo clip (timestamps.getD i 0) (next + overlap)) (1/2)
  | none =>
      Clip.fadein (Clip.subclipFrom clip (timestamps.getLastD 0)) (1/2)

/-- Embeds `split_scenes` (lines 13–23): one subclip per timestamp
(`for i in range(len(timestamps))`). -/
def split_scenes (clip : Clip) (timestamps : List ℚ) (overlap : ℚ) : List Clip :=
  (List.range timestamps.length).map (sceneAt clip timestamps overlap)

/-- Loop of lines 91–100 after reversing the second half: the Python
`while` pops the last element of `second_half` (here the head of
`sndRev`) and then the first element of `first_half` each iteration,
skipping whichever is exhausted. -/
def interleaveGo {α : Type} : List α → List α → List α
  | fst, [] => fst
  | [], s :: sndRev => s :: interleaveGo [] sndRev
  | f :: fst, s :: sndRev => s :: f :: interleaveGo fst sndRev

/-- Embeds lines 88–100: `first_half = clips[:len(clips) // 2]`,
`second_half = clips[len(clips) // 2:]`, then the outside-in popping
loop producing `clip_order`. -/
def interleave {α : Type} (clips : List α) : List α :=
  interleaveGo (clips.take (clips.length / 2))
    ((clips.drop (clips.length / 2)).reverse)

/-- Embeds lines 102–105: `for i in range(len(clip_order) - 2): if
i % 2 == 1: clip_order[i] = blackwhite(clip_order[i])`. -/
def bwMark (clip_order : List Clip) : List Clip :=
  (List.range (clip_order.length - 2)).foldl
    (fun acc i => if i % 2 = 1 then acc.set i (Clip.blackwhite acc[i]!) else acc)
    clip_order

/-- Embeds lines 107–120, the transition construction.  `none` models
the uncaught `IndexError`: in the even branch `clip_order[-1]` raises
on an empty list, in the odd branch `clip_order[-2]` raises on a
single-element list. -/
def buildTransition (clip_order : List Clip) (overlap : ℚ) : Option (List Clip) :=
  if clip_order.length % 2 = 0 then
    match clip_order.getLast? with
    | none => none
    | some last_clip =>
        let faded_clip := Clip.compositeVideoClip
          (Clip.crossfadeout
            (Clip.blackwhite
              (Clip.subclipTo last_clip 0 (last_clip.duration / 2 + overlap)))
            overlap)
          (Clip.crossfadein
            (Clip.setStart (Clip.subclipFrom last_clip (last_clip.duration / 2))
              (last_clip.duration / 2))
            overlap)
        some (clip_order.dropLast ++ [faded_clip])
  else
    match clip_order.dropLast.getLast?, clip_order.getLast? with
    | some second_last, some last_clip =>
        let fade_out := Clip.crossfadeout (Clip.blackwhite second_last) overlap
        let faded_clip := Clip.compositeVideoClip fade_out
          (Clip.crossfadein (Clip.setStart last_clip (fade_out.endTime - overlap))
            overlap)
        some (clip_order.dropLast.dropLast ++ [faded_clip])
    | _, _ => none

/-- Embeds line 123: `[item for pair in zip(clip_order,
itertools.repeat(spacer)) for item in pair]`.  `zip` with the infinite
`repeat` stream truncates to the length of `clip_order`. -/
def finalClipOrder (clip_order : List Clip) (spacer : Clip) : List Clip :=
  (clip_order.zip (List.replicate clip_order.length spacer)).flatMap
    (fun pair => [pair.1, pair.2])

/-- Embeds lines 126–127: `os.path.splitext` (split at the last dot of
the name, leading dots not counted) followed by inserting the
`_mementized` suffix. -/
def splitext (s : String) : String × String :=
  match (s.toList.reverse).span (fun c => decide (c ≠ '.')) with
  | (_, []) => (s, "")
  | (ext, _dot :: stem) =>
      if stem.isEmpty then (s, "")
      else (String.mk stem.reverse, String.mk ('.' :: ext.reverse))

/-- Output filename of line 127: stem + `_mementized` + extension. -/
def outputFilename (filename : String) : String :=
  (splitext filename).1 ++ "_mementized" ++ (splitext filename).2

/-- Result of a run of `mementoize`: an output file is written and its
path returned, or the run crashed with an uncaught `IndexError`, or
the dry-run branch skipped all video processing. -/
inductive Outcome where
  | ok (output : String) (finalClips : List Clip) : Outcome
  | crashed : Outcome
  | dryRun : Outcome
  deriving DecidableEq

/-- Files written by a run: `write_videofile` is reached exactly in
the `ok` outcome. -/
def Outcome.writes : Outcome → List String
  | .ok output _ => [output]
  | .crashed => []
  | .dryRun => []

/-- Path returned by `mementoize`: only the `ok` outcome reaches the
`return output_filename` statement; the dry-run branch falls off the
end (returns `None`), and a crash returns nothing. -/
def Outcome.returned : Outcome → Option String
  | .ok output _ => some output
  | .crashed => none
  | .dryRun => none

/-- Observable result of one `mementoize` run. -/
structure RunResult where
  detectionRan : Bool
  finalCuts : List ℚ
  outcome : Outcome
  deriving DecidableEq

/-- The video-processing block guarded by `if not dry_run:` (lines
84–129): split at the final cuts, interleave outside-in, mark
black-and-white clips, build the transition (an uncaught `IndexError`
there is `.crashed`), insert the 0.5 s spacers, write and return the
output path.  Line 122's `clip_order[0].size` would likewise raise on
an empty list (second `.crashed` branch, unreachable in practice). -/
def runPipeline (filename : String) (overlap : ℚ) (cuts : List ℚ) (source : Clip) :
    Outcome :=
  let clips := split_scenes source cuts overlap
  let clip_order := bwMark (interleave clips)
  match buildTransition clip_order overlap with
  | none => .crashed
  | some transitioned =>
      match transitioned.head? with
      | none => .crashed
      | some _first =>
          .ok (outputFilename filename) (finalClipOrder transitioned (Clip.colorClip (1/2)))

/-- Embeds `mementoize` (lines 39–129).  `detected` stands for the
timestamp list the ffmpeg cut detector would return and `source` for
`VideoFileClip(filename)`; `cuts?` is the `cuts` keyword argument
(`none` = not supplied).  Line 60's `if not cuts:` tests Python
falsiness, so an explicit empty list also triggers detection. -/
def mementoize (filename : String) (skip_start skip_end min_scene_length : ℚ)
    (overlap : ℚ) (cuts? : Option (List ℚ)) (dry_run : Bool)
    (detected : List ℚ) (source : Clip) : RunResult :=
  let detectionRan : Bool :=
    match cuts? with
    | none => true
    | some c => c.isEmpty
  let cuts0 : List ℚ :=
    match cuts? with
    | none => detected
    | some c => if c.isEmpty then detected else c
  let cuts1 := skipStartFilter skip_start cuts0
  let cuts2 := skipEndFilter skip_end cuts1
  let cuts3 := if min_scene_length ≠ 0 then minSceneFilter min_scene_length cuts2 else cuts2
  { detectionRan := detectionRan, finalCuts := cuts3,
    outcome := if dry_run then .dryRun else runPipeline filename overlap cuts3 source }

/-! ### Helper lemmas -/

/-- The cuts accepted by the minimum-scene-length loop are chained:
each is at least `L` past its predecessor (and past `last`). -/
theorem minSceneGo_chain (L : ℚ) (cuts : List ℚ) : ∀ last : ℚ,
    List.Chain (fun a b => a + L ≤ b) last (minSceneGo L last cuts) := by
  induction cuts with
  | nil => intro last; exact List.Chain.nil
  | cons cut rest ih =>
      intro last
      unfold minSceneGo
      by_cases h : last + L ≤ cut
      · rw [if_pos h]
        exact List.Chain.cons h (ih cut)
      · rw [if_neg h]
        exact ih last

/-- On a list that is already chained past `last`, the
minimum-scene-length loop keeps every element. -/
theorem minSceneGo_eq_of_chain (L : ℚ) (cuts : List ℚ) : ∀ last : ℚ,
    List.Chain (fun a b => a + L ≤ b) last cuts → minSceneGo L last cuts = cuts := by
  induction cuts with
  | nil => intro last _; rfl
  | cons cut rest ih =>
      intro last h
      cases h with
      | cons hc ht =>
          unfold minSceneGo
          rw [if_pos hc, ih cut ht]

/-- The interleaving loop emits a permutation of both halves. -/
theorem interleaveGo_perm {α : Type} (sndRev : List α) : ∀ fst : List α,
    (interleaveGo fst sndRev).Perm (fst ++ sndRev) := by
  induction sndRev with
  | nil => intro fst; simp [interleaveGo]
  | cons s sr ih =>
      intro fst
      cases fst with
      | nil => simpa [interleaveGo] using (ih []).cons s
      | cons f fr =>
          show (s :: f :: interleaveGo fr sr).Perm ((f :: fr) ++ s :: sr)
          have h1 : (s :: f :: interleaveGo fr sr).Perm (s :: f :: (fr ++ sr)) :=
            ((ih fr).cons f).cons s
          have h2 : (s :: f :: (fr ++ sr)).Perm (f :: s :: (fr ++ sr)) :=
            List.Perm.swap f s _
          have h3 : (f :: s :: (fr ++ sr)).Perm (f :: (fr ++ s :: sr)) :=
            (List.perm_middle.symm).cons f
          exact (h1.trans h2).trans h3

/-- Interleaving permutes the input clips. -/
theorem interleave_perm {α : Type} (clips : List α) : (interleave clips).Perm clips := by
  refine (interleaveGo_perm _ _).trans ?_
  have h2 := List.Perm.append_left (clips.take (clips.length / 2))
    (List.reverse_perm (clips.drop (clips.length / 2)))
  simpa [List.take_append_drop] using h2

/-- The black-and-white marking loop never changes the list length. -/
theorem bwFold_length (n : ℕ) (acc : List Clip) :
    ((List.range n).foldl
        (fun acc i => if i % 2 = 1 then acc.set i (Clip.blackwhite acc[i]!) else acc)
        acc).length = acc.length := by
  induction n generalizing acc with
  | zero => rfl
  | succ n ih =>
      rw [List.range_succ, List.foldl_append, List.foldl_cons, List.foldl_nil]
      by_cases h : n % 2 = 1
      · rw [if_pos h, List.length_set, ih]
      · rw [if_neg h, ih]

/-- Elementwise description of the black-and-white marking loop over
the index range `[0, n)`: position `j` is converted exactly when `j`
is an odd index below `n`. -/
theorem bwFold_getElem? (n : ℕ) : ∀ acc : List Clip, n ≤ acc.length → ∀ j : ℕ,
    ((List.range n).foldl
        (fun acc i => if i % 2 = 1 then acc.set i (Clip.blackwhite acc[i]!) else acc)
        acc)[j]? =
      if j < n ∧ j % 2 = 1 then (acc[j]?).map Clip.blackwhite else acc[j]? := by
  induction n with
  | zero => intro acc hn j; simp
  | succ n ih =>
      intro acc hn j
      have hn' : n < acc.length := lt_of_lt_of_le (Nat.lt_succ_self n) hn
      have ihn := ih acc (le_of_lt hn')
      rw [List.range_succ, List.foldl_append, List.foldl_cons, List.foldl_nil]
      set F := (List.range n).foldl
        (fun acc i => if i % 2 = 1 then acc.set i (Clip.blackwhite acc[i]!) else acc)
        acc with hF
      have hFlen : F.length = acc.length := bwFold_length n acc
      by_cases hpar : n % 2 = 1
      · rw [if_pos hpar]
        have hFn? : F[n]? = acc[n]? := by
          rw [ihn n, if_neg]
          intro hcon
          exact absurd hcon.1 (lt_irrefl n)
        have hFnlt : n < F.length := by rw [hFlen]; exact hn'
        have hFn : F[n]! = acc[n] := by
          rw [getElem!_pos F n hFnlt]
          have := hFn?
          rw [List.getElem?_eq_getElem hFnlt, List.getElem?_eq_getElem hn'] at this
          exact Option.some.inj this
        rw [List.getElem?_set]
        by_cases hj : n = j
        · subst hj
          rw [if_pos rfl, if_pos hFnlt, if_pos ⟨Nat.lt_succ_self n, hpar⟩, hFn,
            List.getElem?_eq_getElem hn']
          rfl
        · rw [if_neg hj, ihn j]
          by_cases hjn : j < n ∧ j % 2 = 1
          · rw [if_pos hjn, if_pos ⟨Nat.lt_succ_of_lt hjn.1, hjn.2⟩]
          · rw [if_neg hjn, if_neg]
            intro hcon
            refine hjn ⟨?_, hcon.2⟩
            rcases Nat.lt_succ_iff_lt_or_eq.mp hcon.1 with h | h
            · exact h
            · exact absurd (h ▸ hcon.2) (by omega)
      · rw [if_neg hpar, ihn j]
        by_cases hjn : j < n ∧ j % 2 = 1
        · rw [if_pos hjn, if_pos ⟨Nat.lt_succ_of_lt hjn.1, hjn.2⟩]
        · rw [if_neg hjn, if_neg]
          intro hcon
          refine hjn ⟨?_, hcon.2⟩
          rcases Nat.lt_succ_iff_lt_or_eq.mp hcon.1 with h | h
          · exact h
          · exact absurd (h ▸ hcon.2) (by omega)

/-! ### Claim theorems -/

/-- C1: for every raw cut list `C` (in any order) and every
`min_scene_length L > 0`, the minimum-scene-length filtering step
produces a list that starts with 0, is strictly increasing, and whose
adjacent elements differ by at least `L`. -/
theorem claim_C1 (C : List ℚ) (L : ℚ) (hL : 0 < L) :
    (minSceneFilter L C).head? = some 0 ∧
      List.Chain' (fun a b => a < b ∧ L ≤ b - a) (minSceneFilter L C) := by
  refine ⟨rfl, ?_⟩
  show List.Chain (fun a b => a < b ∧ L ≤ b - a) 0 (minSceneGo L 0 C)
  exact (minSceneGo_chain L C 0).imp fun a b h => ⟨by linarith, by linarith⟩

/-- Witness for C1 at `C = [50, 130, 200, 260]`, `L = 120`. -/
theorem claim_C1_witness :
    (0 : ℚ) < 120 ∧
      ((minSceneFilter 120 [50, 130, 200, 260]).head? = some 0 ∧
        List.Chain' (fun a b : ℚ => a < b ∧ 120 ≤ b - a)
          (minSceneFilter 120 [50, 130, 200, 260])) :=
  ⟨by norm_num, claim_C1 [50, 130, 200, 260] 120 (by norm_num)⟩

/-- C5: the minimum-scene-length filter is idempotent for `L > 0`. -/
theorem claim_C5 (C : List ℚ) (L : ℚ) (hL : 0 < L) :
    minSceneFilter L (minSceneFilter L C) = minSceneFilter L C := by
  unfold minSceneFilter
  congr 1
  show minSceneGo L 0 (0 :: minSceneGo L 0 C) = minSceneGo L 0 C
  have hstep : minSceneGo L 0 (0 :: minSceneGo L 0 C) =
      if 0 + L ≤ 0 then 0 :: minSceneGo L 0 (minSceneGo L 0 C)
      else minSceneGo L 0 (minSceneGo L 0 C) := rfl
  rw [hstep, if_neg (by intro hcon; linarith)]
  exact minSceneGo_eq_of_chain L _ 0 (minSceneGo_chain L C 0)

/-- Witness for C5 at `C = [50, 130, 200, 260]`, `L = 120`. -/
theorem claim_C5_witness :
    (0 : ℚ) < 120 ∧
      minSceneFilter 120 (minSceneFilter 120 [50, 130, 200, 260]) =
        minSceneFilter 120 [50, 130, 200, 260] :=
  ⟨by norm_num, claim_C5 [50, 130, 200, 260] 120 (by norm_num)⟩

/-- C2: interleaving any list of `N` clips returns a permutation of
its `N` elements of length exactly `N`, and on the six- and
five-element examples produces the outside-in orders
`[F,A,E,B,D,C]` and `[E,A,D,B,C]` (elements named by original
position `0,…,N-1`). -/
theorem claim_C2 :
    (∀ (α : Type) (clips : List α),
        (interleave clips).length = clips.length ∧ (interleave clips).Perm clips) ∧
      interleave [0, 1, 2, 3, 4, 5] = [5, 0, 4, 1, 3, 2] ∧
      interleave [0, 1, 2, 3, 4] = [4, 0, 3, 1, 2] :=
  ⟨fun _ clips => ⟨(interleave_perm clips).length_eq, interleave_perm clips⟩, rfl, rfl⟩

/-- C4: black-and-white marking preserves the list length and converts
exactly the elements at odd 0-based positions strictly before the
final two positions (so the first element and the final two are never
converted). -/
theorem claim_C4 (clip_order : List Clip) (j : ℕ) :
    (bwMark clip_order).length = clip_order.length ∧
      (bwMark clip_order)[j]? =
        if j % 2 = 1 ∧ j + 2 < clip_order.length then
          (clip_order[j]?).map Clip.blackwhite
        else clip_order[j]? := by
  refine ⟨bwFold_length _ _, ?_⟩
  unfold bwMark
  rw [bwFold_getElem? _ _ (Nat.sub_le _ _) j]
  by_cases hc : j % 2 = 1 ∧ j + 2 < clip_order.length
  · rw [if_pos ⟨by omega, hc.1⟩, if_pos hc]
  · rw [if_neg, if_neg hc]
    intro hcon
    exact hc ⟨hcon.2, by omega⟩

/-- C6: the skip-start filter keeps exactly the cuts that are at least
`skip_start` (inclusive boundary); in particular `skip_start = 10` on
`[5, 10, 15]` keeps `[10, 15]`. -/
theorem claim_C6 (skip_start : ℚ) (cuts : List ℚ) (h : 0 < skip_start) :
    skipStartFilter skip_start cuts = cuts.filter (fun cut => decide (skip_start ≤ cut)) ∧
      skipStartFilter 10 [5, 10, 15] = [10, 15] := by
  refine ⟨?_, rfl⟩
  unfold skipStartFilter
  rw [if_pos (ne_of_gt h)]

/-- Witness for C6 at `skip_start = 10`, `cuts = [5, 10, 15]`. -/
theorem claim_C6_witness :
    (0 : ℚ) < 10 ∧
      (skipStartFilter 10 [5, 10, 15] =
          [5, 10, 15].filter (fun cut => decide ((10 : ℚ) ≤ cut)) ∧
        skipStartFilter 10 [5, 10, 15] = [10, 15]) :=
  ⟨by norm_num, claim_C6 10 [5, 10, 15] (by norm_num)⟩

/-- C3 as stated (for every ordered clip list) is false: on the empty
list (even length 0) the step hits `clip_order[-1]` and on a
single-element list (odd length 1) it hits `clip_order[-2]`, raising
`IndexError` (modelled as `none`) instead of returning a list of the
claimed length. -/
theorem claim_C3_cex :
    buildTransition ([] : List Clip) 4 = none ∧
      buildTransition [Clip.base 10] 4 = none :=
  ⟨rfl, rfl⟩

/-- C3 (amended to ordered clip lists of length at least 2): the
transition-building step leaves the length unchanged when the length
is even, decreases it by exactly 1 when the length is odd, and in both
cases ends with a composite of two sub-segments. -/
theorem claim_C3_amended (clip_order : List Clip) (overlap : ℚ)
    (h : 2 ≤ clip_order.length) :
    ∃ out, buildTransition clip_order overlap = some out ∧
      (clip_order.length % 2 = 0 → out.length = clip_order.length) ∧
      (clip_order.length % 2 = 1 → out.length = clip_order.length - 1) ∧
      ∃ a b, out.getLast? = some (Clip.compositeVideoClip a b) := by
  have hne : clip_order ≠ [] := by
    intro hcon
    rw [hcon] at h
    simp at h
  obtain ⟨last_clip, hlast⟩ :=
    Option.isSome_iff_exists.mp (List.getLast?_isSome.mpr hne)
  by_cases hpar : clip_order.length % 2 = 0
  · unfold buildTransition
    rw [if_pos hpar, hlast]
    refine ⟨_, rfl, fun _ => ?_, fun hodd => ?_, ?_⟩
    · rw [List.length_append, List.length_dropLast, List.length_singleton]
      omega
    · omega
    · exact ⟨_, _, List.getLast?_concat _⟩
  · have hne2 : clip_order.dropLast ≠ [] := by
      have := List.length_dropLast clip_order
      intro hcon
      rw [hcon] at this
      simp at this
      omega
    obtain ⟨second_last, hsl⟩ :=
      Option.isSome_iff_exists.mp (List.getLast?_isSome.mpr hne2)
    unfold buildTransition
    rw [if_neg hpar, hsl, hlast]
    refine ⟨_, rfl, fun heven => absurd heven hpar, fun _ => ?_, ?_⟩
    · rw [List.length_append, List.length_dropLast, List.length_dropLast,
        List.length_singleton]
      omega
    · exact ⟨_, _, List.getLast?_concat _⟩

/-- Witness for the amended C3 at a concrete even-length list. -/
theorem claim_C3_witness :
    2 ≤ ([Clip.base 10, Clip.base 20] : List Clip).length ∧
      ∃ out, buildTransition [Clip.base 10, Clip.base 20] 4 = some out ∧
        (([Clip.base 10, Clip.base 20] : List Clip).length % 2 = 0 →
          out.length = ([Clip.base 10, Clip.base 20] : List Clip).length) ∧
        (([Clip.base 10, Clip.base 20] : List Clip).length % 2 = 1 →
          out.length = ([Clip.base 10, Clip.base 20] : List Clip).length - 1) ∧
        ∃ a b, out.getLast? = some (Clip.compositeVideoClip a b) :=
  ⟨by decide, claim_C3_amended [Clip.base 10, Clip.base 20] 4 (by decide)⟩

/-- C7 as stated is false: the spacer is not inserted before the first
clip.  On a one-clip list the built sequence is clip-then-spacer, not
spacer-then-clip. -/
theorem claim_C7_cex :
    finalClipOrder [Clip.base 7] (Clip.colorClip (1/2)) =
        [Clip.base 7, Clip.colorClip (1/2)] ∧
      finalClipOrder [Clip.base 7] (Clip.colorClip (1/2)) ≠
        [Clip.colorClip (1/2), Clip.base 7] := by
  refine ⟨rfl, ?_⟩
  intro hcon
  have := List.head_eq_of_cons_eq hcon
  exact Clip.noConfusion this

/-- C7 (amended): the concatenation sequence puts the spacer after
each clip — between every pair of adjacent clips and also after the
last one — following the pattern clip, spacer, clip, spacer, …, with a
trailing spacer. -/
theorem claim_C7_amended (clip_order : List Clip) (spacer : Clip) :
    finalClipOrder clip_order spacer = clip_order.flatMap (fun c => [c, spacer]) := by
  induction clip_order with
  | nil => rfl
  | cons c rest ih =>
      have hstep : finalClipOrder (c :: rest) spacer =
          c :: spacer :: finalClipOrder rest spacer := rfl
      rw [hstep, ih, List.flatMap_cons]
      rfl

/-- C8: with `dry_run = True` no video file is written and no output
path is returned, for every combination of the other parameters. -/
theorem claim_C8 (filename : String) (skip_start skip_end min_scene_length overlap : ℚ)
    (cuts? : Option (List ℚ)) (detected : List ℚ) (source : Clip) :
    (mementoize filename skip_start skip_end min_scene_length overlap cuts? true
        detected source).outcome.writes = [] ∧
      (mementoize filename skip_start skip_end min_scene_length overlap cuts? true
        detected source).outcome.returned = none :=
  ⟨rfl, rfl⟩

/-- C9: the transition step crashes (uncaught `IndexError`, modelled
as `none`) whenever the ordered clip list has length 0 or 1, and this
is reachable: with no detected cuts and `min_scene_length = 120` the
cut list is `[0]`, one clip is produced, and the whole run crashes
without writing or returning anything. -/
theorem claim_C9 (clip_order : List Clip) (overlap : ℚ) (h : clip_order.length ≤ 1) :
    buildTransition clip_order overlap = none ∧
      (mementoize "input.mp4" 0 0 120 4 none false [] (Clip.base 600)).outcome =
        Outcome.crashed ∧
      (mementoize "input.mp4" 0 0 120 4 none false []
        (Clip.base 600)).outcome.writes = [] ∧
      (mementoize "input.mp4" 0 0 120 4 none false []
        (Clip.base 600)).outcome.returned = none := by
  refine ⟨?_, rfl, rfl, rfl⟩
  rcases clip_order with _ | ⟨c, _ | ⟨d, rest⟩⟩
  · rfl
  · rfl
  · exfalso
    simp [List.length_cons] at h

/-- Witness for C9 at the empty clip list. -/
theorem claim_C9_witness :
    ([] : List Clip).length ≤ 1 ∧
      (buildTransition ([] : List Clip) 4 = none ∧
        (mementoize "input.mp4" 0 0 120 4 none false [] (Clip.base 600)).outcome =
          Outcome.crashed ∧
        (mementoize "input.mp4" 0 0 120 4 none false []
          (Clip.base 600)).outcome.writes = [] ∧
        (mementoize "input.mp4" 0 0 120 4 none false []
          (Clip.base 600)).outcome.returned = none) :=
  ⟨by decide, claim_C9 [] 4 (by decide)⟩

/-- C10: supplying `cuts = []` behaves exactly like not supplying
`cuts` at all — the falsiness test `if not cuts:` invokes detection in
both cases, so an explicit empty cut list cannot bypass detection. -/
theorem claim_C10 (filename : String) (skip_start skip_end min_scene_length overlap : ℚ)
    (dry_run : Bool) (detected : List ℚ) (source : Clip) :
    mementoize filename skip_start skip_end min_scene_length overlap (some []) dry_run
        detected source =
      mementoize filename skip_start skip_end min_scene_length overlap none dry_run
        detected source ∧
      (mementoize filename skip_start skip_end min_scene_length overlap (some []) dry_run
        detected source).detectionRan = true :=
  ⟨rfl, rfl⟩
